import Mathlib

/-
Verification of the django-alert notification-dispatch subsystem.

Source files embedded directly:
  - alert/backends.py        (EmailBackend.notify, EmailBackend.send)
  - test_project/alert_tests/tests.py (DummyBackend, EpicFailBackend, test fixtures)

Components of the repository that are not present in the source tree
(the registries in alert/utils.py, the Alert model and its send method in
alert/models.py, the send_alerts management command) are modelled from the
specification; each such definition carries a doc comment starting with
"Modelled from the spec:".

Machine integers do not occur; timestamps are modelled as natural numbers.
-/

namespace DjangoAlert

/-- A Django auth user as used by the alert app: only the username and the
email address are read by the code under verification. -/
structure User where
  username : String
  email : String
deriving DecidableEq, Repr

/-- The persisted AlertRecord (alert.models.Alert): one (alert type, backend,
recipient) triple with rendered content and delivery state.  Fields follow
the model described in spec section 3; timestamps are naturals, with
last_attempt unset (none) before any delivery attempt. -/
structure Alert where
  user : User
  backend : String
  alert_type : String
  title : String
  body : String
  is_sent : Bool
  failed : Bool
  last_attempt : Option Nat
deriving DecidableEq, Repr

/-- One outbound mail as handed to django.core.mail.send_mail: positional
arguments subject, body, from_email, recipient_list. -/
structure Mail where
  subject : String
  body : String
  from_email : String
  recipient_list : List String
deriving DecidableEq, Repr

/-- Exceptions raised by backend send code (alert.exceptions.CouldNotSendError). -/
inductive MailError where
  | couldNotSendError
deriving DecidableEq, Repr

/-- EmailBackend.send from alert/backends.py:

    def send(self, alert):
        recipient = alert.user.email
        if not recipient: raise CouldNotSendError
        send_mail(alert.title, alert.body, settings.DEFAULT_FROM_EMAIL, [recipient])

The mail outbox is threaded explicitly; settings.DEFAULT_FROM_EMAIL is the
parameter dfe.  A falsy string in Python is exactly the empty string.
On success the (unmutated) alert is returned together with the outbox
extended by the one mail that send_mail delivers. -/
def EmailBackend.send (dfe : String) (alert : Alert) (outbox : List Mail) :
    Except MailError (Alert × List Mail) :=
  let recipient := alert.user.email
  if recipient = "" then .error .couldNotSendError
  else .ok (alert, outbox ++ [⟨alert.title, alert.body, dfe, [recipient]⟩])

/-- The argument of EmailBackend.notify: in Python, notify receives either a
single Alert instance (iterating it raises TypeError) or an iterable of
Alert instances. -/
inductive NotifyArg where
  | single : Alert → NotifyArg
  | batch : List Alert → NotifyArg
deriving Repr

/-- The list comprehension [self.send(n) for n in alerts]: sends each alert
in order; the first exception aborts the comprehension and propagates, so
mails already sent stay in the outbox and later members are not attempted.
Returns the outbox together with the propagated exception, if any. -/
def sendComprehension (dfe : String) : List Alert → List Mail →
    List Mail × Option MailError
  | [], outbox => (outbox, none)
  | a :: rest, outbox =>
    match EmailBackend.send dfe a outbox with
    | .error e => (outbox, some e)
    | .ok (_, outbox1) => sendComprehension dfe rest outbox1

/-- EmailBackend.notify from alert/backends.py:

    def notify(self, alerts):
        try:
            [self.send(n) for n in alerts]
        except TypeError:
            self.send(alerts)

For an iterable argument the comprehension runs (its exceptions other than
TypeError propagate); for a single non-iterable alert the iteration raises
TypeError at once, before any send, and the except branch calls
send(alerts) on the single record. -/
def EmailBackend.notify (dfe : String) (arg : NotifyArg) (outbox : List Mail) :
    List Mail × Option MailError :=
  match arg with
  | .batch alerts => sendComprehension dfe alerts outbox
  | .single a =>
    match EmailBackend.send dfe a outbox with
    | .error e => (outbox, some e)
    | .ok (_, outbox1) => (outbox1, none)

/-- Modelled from the spec (section 4.4), for comparison with the code:
"for a batch it is equivalent to calling send on each member independently
(no cross-record atomicity implied)", i.e. one member failing does not
prevent send being attempted on the remaining members.  Returns the outbox
after all members were attempted, plus whether any member raised. -/
def notifySpecIndependent (dfe : String) : List Alert → List Mail →
    List Mail × Bool
  | [], outbox => (outbox, false)
  | a :: rest, outbox =>
    match EmailBackend.send dfe a outbox with
    | .error _ =>
      let r := notifySpecIndependent dfe rest outbox
      (r.1, true)
    | .ok (_, outbox1) =>
      notifySpecIndependent dfe rest outbox1

/-! ## Registries (modelled from the spec, sections 4.1 and 7) -/

/-- Registration-time exceptions (alert.exceptions.AlertIDAlreadyInUse and
alert.exceptions.AlertBackendIDAlreadyInUse), the two concrete forms of the
DuplicateIdError of the spec. -/
inductive RegError where
  | alertIDAlreadyInUse
  | alertBackendIDAlreadyInUse
deriving DecidableEq, Repr

/-- Whether a registry, an association list in insertion order, already
contains a definition under the given identifier. -/
def hasId {α : Type} (reg : List (String × α)) (i : String) : Bool :=
  reg.any (fun p => p.1 == i)

/-- Modelled from the spec: register (alert.utils, not in the source tree):
"inserts into the mapping. Fails with DuplicateIdError if definition.id
already present"; insertion order is preserved.  The attempt returns the
registry after the attempt together with the raised exception, if any; a
failed attempt leaves the registry as it was. -/
def registerInto {α : Type} (reg : List (String × α)) (i : String) (d : α)
    (e : RegError) : List (String × α) × Option RegError :=
  if hasId reg i then (reg, some e) else (reg ++ [(i, d)], none)

/-- Modelled from the spec: registration into the alert-type registry
ALERT_TYPES raises AlertIDAlreadyInUse on a duplicate identifier. -/
def registerAlertType {α : Type} (reg : List (String × α)) (i : String)
    (d : α) : List (String × α) × Option RegError :=
  registerInto reg i d .alertIDAlreadyInUse

/-- Modelled from the spec: registration into the backend registry
ALERT_BACKENDS raises AlertBackendIDAlreadyInUse on a duplicate identifier. -/
def registerBackend {α : Type} (reg : List (String × α)) (i : String)
    (d : α) : List (String × α) × Option RegError :=
  registerInto reg i d .alertBackendIDAlreadyInUse

/-! ## Backend definitions and registry keys (claim C8) -/

/-- A backend definition as written in the source: the name of the
implementing class, an optional explicit id attribute, and a title. -/
structure BackendDef where
  className : String
  explicitId : Option String
  title : String
deriving DecidableEq, Repr

/-- Modelled from the spec: the registry key of a backend definition,
"defaults to a canonical name derived from the implementing type if not
explicitly supplied" (spec section 3); the canonical name is the class
name, as the tests in the source tree show (ALERT_BACKENDS["DummyBackend"],
ALERT_BACKENDS["EpicFail"]). -/
def backendRegistryKey (b : BackendDef) : String :=
  b.explicitId.getD b.className

/-- DummyBackend from tests.py: no explicit id attribute, title "Dummy". -/
def DummyBackendDef : BackendDef :=
  { className := "DummyBackend", explicitId := none, title := "Dummy" }

/-- EpicFailBackend from tests.py: explicit id "EpicFail", title "Epic Fail". -/
def EpicFailBackendDef : BackendDef :=
  { className := "EpicFailBackend", explicitId := some "EpicFail", title := "Epic Fail" }

/-! ## The per-record delivery attempt (modelled from the spec, section 4.3) -/

/-- Outcome of one backend send call on one record: normal return, or the
CouldNotDeliver exception. -/
inductive SendOutcome where
  | success
  | couldNotDeliver
deriving DecidableEq, Repr

/-- EpicFailBackend.send from tests.py:

    def send(self, alert):
        if not alert.failed:
            raise CouldNotSendError

It raises exactly when the record has not failed before, so the first
attempt on a fresh record fails and the retry succeeds. -/
def EpicFailBackend.send (a : Alert) : SendOutcome :=
  if a.failed then .success else .couldNotDeliver

/-- Modelled from the spec: the per-record delivery attempt of the dispatch
engine (Alert.send in alert/models.py, not in the source tree), spec
section 4.3 steps 2-4: while holding the claim, set lastAttemptAt to now
(the parameter t), invoke the backend send; on success set isSent true and
failed false; on CouldNotDeliver set failed true and leave isSent as it
was. -/
def attemptSend (send : Alert → SendOutcome) (t : Nat) (a : Alert) : Alert :=
  match send { a with last_attempt := some t } with
  | .success => { a with last_attempt := some t, is_sent := true, failed := false }
  | .couldNotDeliver => { a with last_attempt := some t, failed := true }

/-- An alert record paired with the number of times a backend send has been
invoked on it, the "backend call counter" of the spec (section 8). -/
structure TrackedAlert where
  alert : Alert
  sendCalls : Nat
deriving DecidableEq, Repr

/-- Modelled from the spec: one sweep of the dispatch engine restricted to
one record.  A sweep enumerates the pending set (records with isSent
false), so a record with isSent true is not touched and its backend send is
not invoked; a pending record receives one delivery attempt, counted. -/
def sweepOne (send : Alert → SendOutcome) (t : Nat) (r : TrackedAlert) :
    TrackedAlert :=
  if r.alert.is_sent then r
  else { alert := attemptSend send t r.alert, sendCalls := r.sendCalls + 1 }

/-- Modelled from the spec: a sequence of sweeps over one record, one sweep
per timestamp in the list. -/
def sweepsOne (send : Alert → SendOutcome) (ts : List Nat) (r : TrackedAlert) :
    TrackedAlert :=
  ts.foldl (fun r t => sweepOne send t r) r

/-- Modelled from the spec: one full sweep of the dispatch engine over a
store of records (the send_alerts management command, not in the source
tree): every pending record receives one delivery attempt; sent records are
skipped. -/
def sweepStore (send : Alert → SendOutcome) (t : Nat) (store : List Alert) :
    List Alert :=
  store.map (fun a => if a.is_sent then a else attemptSend send t a)

/-- The pending set (spec section 3): "all Alert Records with isSent=false";
Alert.pending.all().count() is its size. -/
def pendingCount (store : List Alert) : Nat :=
  (store.filter (fun a => !a.is_sent)).length

/-! ## Alert factory (modelled from the spec, section 4.2) -/

/-- An alert-type definition (spec section 3): identifier, targeted
backends, and the behaviour hooks, pure functions of the event payload P. -/
structure AlertTypeDef (P : Type) where
  id : String
  targetBackendIds : List String
  isApplicable : P → Bool
  recipientsFor : P → List User
  renderContent : User → P → String × String

/-- Modelled from the spec: the records the alert factory materializes for
one recipient: one fresh AlertRecord per targeted backend, with the
rendered title and body fixed at creation, isSent=false, failed=false,
lastAttemptAt unset. -/
def recordsForRecipient {P : Type} (T : AlertTypeDef P) (p : P) (r : User) :
    List Alert :=
  T.targetBackendIds.map (fun b =>
    { user := r, backend := b, alert_type := T.id,
      title := (T.renderContent r p).1, body := (T.renderContent r p).2,
      is_sent := false, failed := false, last_attempt := none })

/-- Modelled from the spec: the fan-out of the alert factory over a list
of recipients: the concatenation of the per-recipient records. -/
def fanOut {P : Type} (T : AlertTypeDef P) (p : P) (L : List User) :
    List Alert :=
  L.foldr (fun r acc => recordsForRecipient T p r ++ acc) []

/-- Modelled from the spec: the alert factory (spec section 4.2).  On a
triggering event with payload p it is a no-op unless T.isApplicable p; it
then creates, for each recipient returned by T.recipientsFor whose stored
preference enables the type, one record per targeted backend; recipients
who opted out are skipped entirely. -/
def createAlerts {P : Type} (T : AlertTypeDef P) (pref : User → Bool)
    (p : P) : List Alert :=
  if T.isApplicable p then fanOut T p ((T.recipientsFor p).filter pref)
  else []

/-- Number of records in a store for one (recipient, backend) pair. -/
def countFor (store : List Alert) (u : User) (b : String) : Nat :=
  (store.filter (fun a => decide (a.user = u ∧ a.backend = b))).length

/-- Number of records in a store for one recipient, over all backends. -/
def countForUser (store : List Alert) (u : User) : Nat :=
  (store.filter (fun a => decide (a.user = u))).length

/-! ## Concurrent dispatch (modelled from the spec, sections 4.3 and 5)

The claim-and-send protocol under arbitrary interleaving of many sweeps.
A system state holds the shared store (one RecState per record) and the
program counter of every sweep thread.  Each record carries its isSent and
failed flags, whether its row lock is held, and how many successful
deliveries (mails in the shared outbox) it has produced; lastAttemptAt is
not represented, since no wall clock exists in the interleaving model and
the concurrency property does not mention it.  A sweep visits the records
in order; per record it first tries to claim the row lock (skipping the
record on contention, spec section 4.3 step 1), then, holding the lock,
re-checks isSent (spec section 5) and either releases without sending or
performs the send and records the outcome, releasing the lock in the same
protected section. -/

/-- Shared per-record state of the concurrency model. -/
structure RecState where
  is_sent : Bool
  locked : Bool
  failed : Bool
  delivered : Nat
deriving DecidableEq, Repr

/-- Program counter of one sweep thread over n records: about to visit
record p (done when n is reached), or holding the row lock of record i. -/
inductive ThreadState (n : Nat) where
  | atRecord (p : Nat)
  | holding (i : Fin n)
deriving DecidableEq, Repr

/-- A system state: the shared store of n records and m sweep threads. -/
@[ext]
structure Sys (n m : Nat) where
  recs : Fin n → RecState
  thrs : Fin m → ThreadState n

/-- Modelled from the spec: one atomic transition of the concurrent
dispatch system.  The backend outcome per record is the fixed function
outcome (the backends of the concurrency scenario are deterministic).
The successor state is characterised pointwise.  Transitions:
skip (lock contention, a silent skip-and-continue), claim (acquire the
free row lock), releaseSent (the re-check under the lock finds isSent
already true: release without sending), deliver (send succeeds: isSent
true, failed false, one more delivery, lock released), deliverFail
(send raises CouldNotDeliver: failed true, isSent stays false, lock
released, no delivery). -/
inductive Step (n m : Nat) (outcome : Fin n → SendOutcome) :
    Sys n m → Sys n m → Prop where
  | skip (s s' : Sys n m) (t : Fin m) (p : Nat) (hp : p < n)
      (ht : s.thrs t = .atRecord p)
      (hl : (s.recs ⟨p, hp⟩).locked = true)
      (hr : ∀ j, s'.recs j = s.recs j)
      (hth : ∀ u, s'.thrs u = if u = t then .atRecord (p + 1) else s.thrs u) :
      Step n m outcome s s'
  | claim (s s' : Sys n m) (t : Fin m) (p : Nat) (hp : p < n)
      (ht : s.thrs t = .atRecord p)
      (hl : (s.recs ⟨p, hp⟩).locked = false)
      (hr : ∀ j, s'.recs j =
        if j = ⟨p, hp⟩ then { s.recs j with locked := true } else s.recs j)
      (hth : ∀ u, s'.thrs u =
        if u = t then .holding ⟨p, hp⟩ else s.thrs u) :
      Step n m outcome s s'
  | releaseSent (s s' : Sys n m) (t : Fin m) (i : Fin n)
      (ht : s.thrs t = .holding i)
      (hsent : (s.recs i).is_sent = true)
      (hr : ∀ j, s'.recs j =
        if j = i then { s.recs j with locked := false } else s.recs j)
      (hth : ∀ u, s'.thrs u =
        if u = t then .atRecord (i.val + 1) else s.thrs u) :
      Step n m outcome s s'
  | deliver (s s' : Sys n m) (t : Fin m) (i : Fin n)
      (ht : s.thrs t = .holding i)
      (hsent : (s.recs i).is_sent = false)
      (hout : outcome i = .success)
      (hr : ∀ j, s'.recs j =
        if j = i then
          { is_sent := true, locked := false, failed := false,
            delivered := (s.recs i).delivered + 1 }
        else s.recs j)
      (hth : ∀ u, s'.thrs u =
        if u = t then .atRecord (i.val + 1) else s.thrs u) :
      Step n m outcome s s'
  | deliverFail (s s' : Sys n m) (t : Fin m) (i : Fin n)
      (ht : s.thrs t = .holding i)
      (hsent : (s.recs i).is_sent = false)
      (hout : outcome i = .couldNotDeliver)
      (hr : ∀ j, s'.recs j =
        if j = i then { s.recs i with failed := true, locked := false }
        else s.recs j)
      (hth : ∀ u, s'.thrs u =
        if u = t then .atRecord (i.val + 1) else s.thrs u) :
      Step n m outcome s s'

/-- A fresh record in the concurrency model: pending, unlocked, no
deliveries. -/
def initRec : RecState :=
  { is_sent := false, locked := false, failed := false, delivered := 0 }

/-- Initial system state: every record fresh, every sweep about to visit
record 0. -/
def initSys (n m : Nat) : Sys n m :=
  { recs := fun _ => initRec, thrs := fun _ => .atRecord 0 }

/-- States reachable from the initial state by interleaved sweep steps. -/
def Reachable (n m : Nat) (outcome : Fin n → SendOutcome) (s : Sys n m) :
    Prop :=
  Relation.ReflTransGen (Step n m outcome) (initSys n m) s

/-- A sweep thread is done when its position has passed every record. -/
def ThreadDone (n : Nat) : ThreadState n → Prop
  | .atRecord p => n ≤ p
  | .holding _ => False

/-- All sweeps have run to completion (every thread joined). -/
def AllDone {n m : Nat} (s : Sys n m) : Prop :=
  ∀ t, ThreadDone n (s.thrs t)

/-- Total number of successful deliveries (the length of the shared mail
outbox in the test scenario). -/
def totalDelivered {n m : Nat} (s : Sys n m) : Nat :=
  ∑ i, (s.recs i).delivered

/-- A thread has moved past record i. -/
def passed {n : Nat} (ts : ThreadState n) (i : Fin n) : Prop :=
  match ts with
  | .atRecord p => i.val < p
  | .holding j => i.val < j.val

/-! ## The invariant of the concurrent dispatch protocol -/

/-- Invariant of the claim-and-send protocol, preserved by every step:
the delivery count of a record is 1 exactly when it is sent; a holding
thread implies the row lock is held; at most one thread holds a record;
a held lock has a holder; and once any thread has moved past a record
whose backend succeeds, that record is sent or currently claimed. -/
structure Inv {n m : Nat} (outcome : Fin n → SendOutcome) (s : Sys n m) :
    Prop where
  delivered_eq : ∀ i, (s.recs i).delivered =
    if (s.recs i).is_sent then 1 else 0
  holding_locked : ∀ t i, s.thrs t = .holding i → (s.recs i).locked = true
  holding_unique : ∀ t u i, s.thrs t = .holding i → s.thrs u = .holding i →
    t = u
  locked_holder : ∀ i, (s.recs i).locked = true → ∃ t, s.thrs t = .holding i
  passed_state : ∀ i, outcome i = .success → ∀ t, passed (s.thrs t) i →
    (s.recs i).is_sent = true ∨ (s.recs i).locked = true

/-- A delivered record at rest: sent, unlocked, exactly one delivery. -/
def sentRec : RecState :=
  { is_sent := true, locked := false, failed := false, delivered := 1 }

/-- Intermediate state of the concurrency witness scenario (two records,
one hundred sweeps): both records delivered, the first k sweeps done, the
rest not yet started. -/
def c1Stage (k : Nat) : Sys 2 100 :=
  { recs := fun _ => sentRec,
    thrs := fun t => if t.val < k then .atRecord 2 else .atRecord 0 }

/-- Final state of the concurrency witness scenario: both records
delivered exactly once, all one hundred sweeps done. -/
def c1FinalSys : Sys 2 100 :=
  { recs := fun _ => sentRec, thrs := fun _ => .atRecord 2 }

/-! ## Concrete fixtures from the test suite, used as witnesses -/

/-- A user whose email address is empty (falsy in Python). -/
def userNoEmail : User := { username := "u1", email := "" }

/-- A user with a non-empty email address, as created in setUp. -/
def userWithEmail : User := { username := "u2", email := "u2@example.com" }

/-- A fresh alert record for the user without an email address. -/
def alertNoEmail : Alert :=
  { user := userNoEmail, backend := "EmailBackend",
    alert_type := "WelcomeAlert", title := "email subject",
    body := "email body", is_sent := false, failed := false,
    last_attempt := none }

/-- A fresh alert record for the user with an email address. -/
def alertWithEmail : Alert :=
  { user := userWithEmail, backend := "EmailBackend",
    alert_type := "WelcomeAlert", title := "email subject",
    body := "email body", is_sent := false, failed := false,
    last_attempt := none }

/-- The WelcomeAlert type of the test suite as an alert-type definition
over a trivial payload: it targets the four registered backends and
renders the default content for every recipient. -/
def WelcomeAlertDef : AlertTypeDef Unit :=
  { id := "WelcomeAlert",
    targetBackendIds := ["DummyBackend", "EpicFail", "SlowBackend",
      "EmailBackend"],
    isApplicable := fun _ => true,
    recipientsFor := fun _ => [userWithEmail],
    renderContent := fun _ _ => ("default title", "default body") }

/-- A backend-outcome function under which exactly the records of one
backend fail: send raises CouldNotDeliver on records of backend b and
succeeds elsewhere. -/
def sendFailOn (b : String) (a : Alert) : SendOutcome :=
  if a.backend = b then .couldNotDeliver else .success

/-- An alert-type definition with two recipients, one of whom will opt
out, for the factory witness. -/
def TwoUserAlertDef : AlertTypeDef Unit :=
  { id := "WelcomeAlert",
    targetBackendIds := ["DummyBackend", "EpicFail", "SlowBackend",
      "EmailBackend"],
    isApplicable := fun _ => true,
    recipientsFor := fun _ => [userWithEmail, userNoEmail],
    renderContent := fun _ _ => ("default title", "default body") }

/-- The stored preference used in the factory witness: users without an
email address have opted out. -/
def prefByEmail (u : User) : Bool :=
  !(u.email == "")

/-! ## Theorems -/

/-- Claim C9: EmailBackend.send raises CouldNotSendError exactly when the
email address of the user of the record is empty (falsy); with a non-empty
address it invokes the mail transport exactly once, with the record title
as subject, the record body, the configured default from-address, and the
user email as the sole recipient, and it raises nothing. -/
theorem emailBackend_send_characterisation (dfe : String) (a : Alert)
    (outbox : List Mail) :
    (a.user.email = "" →
      EmailBackend.send dfe a outbox = .error .couldNotSendError) ∧
    (a.user.email ≠ "" →
      EmailBackend.send dfe a outbox =
        .ok (a, outbox ++ [⟨a.title, a.body, dfe, [a.user.email]⟩])) := by
  constructor <;> intro h <;> simp [EmailBackend.send, h]

/-- Witness for C9: both branches at concrete records from the test
fixtures. -/
theorem emailBackend_send_characterisation_witness :
    alertNoEmail.user.email = "" ∧
    EmailBackend.send "from@example.com" alertNoEmail [] =
      .error .couldNotSendError ∧
    alertWithEmail.user.email ≠ "" ∧
    EmailBackend.send "from@example.com" alertWithEmail [] =
      .ok (alertWithEmail,
        [⟨"email subject", "email body", "from@example.com",
          ["u2@example.com"]⟩]) :=
  ⟨rfl,
   (emailBackend_send_characterisation "from@example.com" alertNoEmail []).1
     rfl,
   by decide,
   (emailBackend_send_characterisation "from@example.com" alertWithEmail
     []).2 (by decide)⟩

/-- Claim C10: EmailBackend.send never alters the alert record: whenever it
returns successfully, the record it hands back is the record it received,
every field included; on the error path it mutates nothing either (the
embedding threads no record through the error). -/
theorem emailBackend_send_frame (dfe : String) (a : Alert)
    (outbox : List Mail) :
    ∀ a1 outbox1, EmailBackend.send dfe a outbox = .ok (a1, outbox1) →
      a1 = a := by
  intro a1 outbox1 h
  unfold EmailBackend.send at h
  by_cases he : a.user.email = "" <;> simp [he] at h
  exact h.1.symm

/-- Witness for C10: the successful send on the concrete record returns
that record unchanged. -/
theorem emailBackend_send_frame_witness :
    EmailBackend.send "from@example.com" alertWithEmail [] =
      .ok (alertWithEmail,
        [⟨"email subject", "email body", "from@example.com",
          ["u2@example.com"]⟩]) ∧
    alertWithEmail = alertWithEmail :=
  ⟨rfl,
   emailBackend_send_frame "from@example.com" alertWithEmail []
     alertWithEmail
     [⟨"email subject", "email body", "from@example.com",
       ["u2@example.com"]⟩] rfl⟩

/-- Claim C7, counterexample: notify on a batch is not equivalent to
calling send on each member independently.  On the concrete batch whose
first record has an empty email address and whose second is deliverable,
notify raises after the first member and leaves the outbox empty — the
second member is never attempted — while independent sends deliver the
second member. -/
theorem notify_batch_not_independent :
    EmailBackend.notify "from@example.com"
        (.batch [alertNoEmail, alertWithEmail]) [] =
      ([], some .couldNotSendError) ∧
    (notifySpecIndependent "from@example.com"
        [alertNoEmail, alertWithEmail] []).1 =
      [⟨"email subject", "email body", "from@example.com",
        ["u2@example.com"]⟩] ∧
    (EmailBackend.notify "from@example.com"
        (.batch [alertNoEmail, alertWithEmail]) []).1 ≠
      (notifySpecIndependent "from@example.com"
        [alertNoEmail, alertWithEmail] []).1 := by
  refine ⟨by decide, by decide, by decide⟩

/-- Claim C7 as amended: notify given a single (non-iterable) record
behaves exactly as send on that record; given a batch it calls send on the
members in order and stops at the first member whose send raises,
propagating that exception, so one member failing does prevent send being
attempted on the remaining members. -/
theorem notify_single_and_stops_at_first_failure (dfe : String) (a : Alert)
    (rest : List Alert) (outbox : List Mail) :
    (EmailBackend.notify dfe (.single a) outbox =
      match EmailBackend.send dfe a outbox with
      | .error e => (outbox, some e)
      | .ok (_, outbox1) => (outbox1, none)) ∧
    (a.user.email = "" →
      EmailBackend.notify dfe (.batch (a :: rest)) outbox =
        (outbox, some .couldNotSendError)) ∧
    (a.user.email ≠ "" →
      EmailBackend.notify dfe (.batch (a :: rest)) outbox =
        EmailBackend.notify dfe (.batch rest)
          (outbox ++ [⟨a.title, a.body, dfe, [a.user.email]⟩])) := by
  refine ⟨rfl, fun h => ?_, fun h => ?_⟩ <;>
    simp [EmailBackend.notify, sendComprehension, EmailBackend.send, h]

/-- Witness for the amended C7: both batch branches at concrete inputs. -/
theorem notify_single_and_stops_at_first_failure_witness :
    alertNoEmail.user.email = "" ∧
    EmailBackend.notify "from@example.com"
        (.batch [alertNoEmail, alertWithEmail]) [] =
      ([], some .couldNotSendError) ∧
    alertWithEmail.user.email ≠ "" ∧
    EmailBackend.notify "from@example.com" (.batch [alertWithEmail]) [] =
      EmailBackend.notify "from@example.com" (.batch [])
        [⟨"email subject", "email body", "from@example.com",
          ["u2@example.com"]⟩] :=
  ⟨rfl,
   (notify_single_and_stops_at_first_failure "from@example.com"
     alertNoEmail [alertWithEmail] []).2.1 rfl,
   by decide,
   (notify_single_and_stops_at_first_failure "from@example.com"
     alertWithEmail [] []).2.2 (by decide)⟩

/-- Claim C4: registering an identifier already present in a registry
raises the duplicate-id exception of that registry (AlertIDAlreadyInUse for
alert types, AlertBackendIDAlreadyInUse for backends), and the registry
contents and size after the failed registration equal those before it. -/
theorem register_duplicate_rejected {α : Type} (reg : List (String × α))
    (i : String) (d : α) (h : hasId reg i = true) :
    registerAlertType reg i d = (reg, some .alertIDAlreadyInUse) ∧
    registerBackend reg i d = (reg, some .alertBackendIDAlreadyInUse) ∧
    (registerAlertType reg i d).1 = reg ∧
    (registerAlertType reg i d).1.length = reg.length ∧
    (registerBackend reg i d).1 = reg ∧
    (registerBackend reg i d).1.length = reg.length := by
  simp [registerAlertType, registerBackend, registerInto, h]

/-- Witness for C4: re-registering WelcomeAlert (resp. DummyBackend) in a
registry already holding it fails and leaves the registry unchanged. -/
theorem register_duplicate_rejected_witness :
    hasId [("SubclassTestingAlert", 0), ("WelcomeAlert", 1)]
      "WelcomeAlert" = true ∧
    registerAlertType [("SubclassTestingAlert", 0), ("WelcomeAlert", 1)]
        "WelcomeAlert" 2 =
      ([("SubclassTestingAlert", 0), ("WelcomeAlert", 1)],
       some .alertIDAlreadyInUse) :=
  ⟨by decide,
   (register_duplicate_rejected
     [("SubclassTestingAlert", 0), ("WelcomeAlert", 1)] "WelcomeAlert" 2
     (by decide)).1⟩

/-- Claim C8: the registry key of a backend definition registered without
an explicit id is the name of the implementing class (DummyBackend is keyed
"DummyBackend"); a supplied explicit id is used instead (EpicFailBackend is
keyed "EpicFail"). -/
theorem backendRegistryKey_spec :
    backendRegistryKey DummyBackendDef = "DummyBackend" ∧
    backendRegistryKey EpicFailBackendDef = "EpicFail" ∧
    (∀ b : BackendDef, b.explicitId = none →
      backendRegistryKey b = b.className) ∧
    (∀ b : BackendDef, ∀ i, b.explicitId = some i →
      backendRegistryKey b = i) := by
  refine ⟨rfl, rfl, fun b h => ?_, fun b i h => ?_⟩ <;>
    simp [backendRegistryKey, h]

/-- Witness for C8: the general default and override clauses applied to the
concrete backend definitions of the test suite. -/
theorem backendRegistryKey_spec_witness :
    DummyBackendDef.explicitId = none ∧
    backendRegistryKey DummyBackendDef = DummyBackendDef.className ∧
    EpicFailBackendDef.explicitId = some "EpicFail" ∧
    backendRegistryKey EpicFailBackendDef = "EpicFail" :=
  ⟨rfl, backendRegistryKey_spec.2.2.1 DummyBackendDef rfl, rfl,
   backendRegistryKey_spec.2.2.2 EpicFailBackendDef "EpicFail" rfl⟩

/-- Claim C2: a delivery attempt in which the backend raises
CouldNotDeliver leaves the record with failed true, isSent false, and
lastAttemptAt equal to the clock reading of the attempt, which lies
strictly between the start and the end of the attempt; a subsequent
attempt in which the backend succeeds leaves failed false, isSent true,
and a strictly newer lastAttemptAt, again strictly inside that attempt. -/
theorem attempt_fail_then_retry (send : Alert → SendOutcome) (a : Alert)
    (start1 t1 finish1 start2 t2 finish2 : Nat)
    (hsent : a.is_sent = false)
    (hfail : send { a with last_attempt := some t1 } = .couldNotDeliver)
    (h11 : start1 < t1) (h12 : t1 < finish1)
    (hsucc : send { a with failed := true, last_attempt := some t2 } =
      .success)
    (h21 : start2 < t2) (h22 : t2 < finish2) (hnew : t1 < t2) :
    ((attemptSend send t1 a).failed = true ∧
     (attemptSend send t1 a).is_sent = false ∧
     (∀ x, (attemptSend send t1 a).last_attempt = some x →
        start1 < x ∧ x < finish1)) ∧
    ((attemptSend send t2 (attemptSend send t1 a)).failed = false ∧
     (attemptSend send t2 (attemptSend send t1 a)).is_sent = true ∧
     (∀ x y, (attemptSend send t1 a).last_attempt = some x →
        (attemptSend send t2 (attemptSend send t1 a)).last_attempt =
          some y →
        x < y ∧ start2 < y ∧ y < finish2)) := by
  have e1 : attemptSend send t1 a =
      { a with last_attempt := some t1, failed := true } := by
    unfold attemptSend
    split
    next heq => exact SendOutcome.noConfusion (hfail.symm.trans heq)
    next heq => rfl
  have e2 : attemptSend send t2 (attemptSend send t1 a) =
      { a with last_attempt := some t2, is_sent := true, failed := false } := by
    rw [e1]
    unfold attemptSend
    split
    next heq => rfl
    next heq => exact SendOutcome.noConfusion (hsucc.symm.trans heq)
  rw [e2, e1]
  refine ⟨⟨rfl, hsent, ?_⟩, rfl, rfl, ?_⟩
  · intro x hx
    cases hx
    exact ⟨h11, h12⟩
  · intro x y hx hy
    cases hx
    cases hy
    exact ⟨hnew, h21, h22⟩

/-- Witness for C2: the EpicFail backend of the test suite on a fresh
record fails the first attempt and succeeds on the retry. -/
theorem attempt_fail_then_retry_witness :
    alertWithEmail.is_sent = false ∧
    EpicFailBackend.send { alertWithEmail with last_attempt := some 5 } =
      .couldNotDeliver ∧
    EpicFailBackend.send
        { attemptSend EpicFailBackend.send 5 alertWithEmail with
          last_attempt := some 8 } = .success ∧
    (attemptSend EpicFailBackend.send 5 alertWithEmail).failed = true ∧
    (attemptSend EpicFailBackend.send 8
        (attemptSend EpicFailBackend.send 5 alertWithEmail)).is_sent =
      true :=
  ⟨rfl, by decide, by decide,
   ((attempt_fail_then_retry EpicFailBackend.send alertWithEmail
       4 5 6 7 8 9 rfl (by decide) (by decide) (by decide) (by decide)
       (by decide) (by decide) (by decide)).1).1,
   ((attempt_fail_then_retry EpicFailBackend.send alertWithEmail
       4 5 6 7 8 9 rfl (by decide) (by decide) (by decide) (by decide)
       (by decide) (by decide) (by decide)).2).2.1⟩

/-- Claim C3: a record with isSent true is never touched by any further
sweep: any sequence of later sweeps leaves the record identical and its
backend call counter exactly where it was. -/
theorem sent_record_never_resent (send : Alert → SendOutcome)
    (ts : List Nat) (r : TrackedAlert) (h : r.alert.is_sent = true) :
    sweepsOne send ts r = r ∧
    (sweepsOne send ts r).sendCalls = r.sendCalls := by
  have key : sweepsOne send ts r = r := by
    induction ts with
    | nil => rfl
    | cons t ts ih =>
      have hone : sweepOne send t r = r := by
        simp [sweepOne, h]
      calc sweepsOne send (t :: ts) r
          = sweepsOne send ts (sweepOne send t r) := rfl
        _ = sweepsOne send ts r := by rw [hone]
        _ = r := ih
  exact ⟨key, by rw [key]⟩

/-- Witness for C3: a delivered record with one recorded backend call is
unchanged by three further sweeps. -/
theorem sent_record_never_resent_witness :
    ({ alert := { alertWithEmail with is_sent := true }, sendCalls := 1 } :
      TrackedAlert).alert.is_sent = true ∧
    sweepsOne EpicFailBackend.send [11, 12, 13]
        { alert := { alertWithEmail with is_sent := true },
          sendCalls := 1 } =
      { alert := { alertWithEmail with is_sent := true }, sendCalls := 1 } :=
  ⟨rfl,
   (sent_record_never_resent EpicFailBackend.send [11, 12, 13]
     { alert := { alertWithEmail with is_sent := true }, sendCalls := 1 }
     rfl).1⟩

/-! ### Counting lemmas for the factory fan-out -/

theorem countFor_append (s1 s2 : List Alert) (u : User) (b : String) :
    countFor (s1 ++ s2) u b = countFor s1 u b + countFor s2 u b := by
  simp [countFor, List.filter_append]

theorem countForUser_append (s1 s2 : List Alert) (u : User) :
    countForUser (s1 ++ s2) u = countForUser s1 u + countForUser s2 u := by
  simp [countForUser, List.filter_append]

theorem filter_eq_single_length {α : Type} [DecidableEq α] {l : List α}
    {b : α} (hnd : l.Nodup) (hb : b ∈ l) :
    (l.filter (fun x => decide (x = b))).length = 1 := by
  induction l with
  | nil => cases hb
  | cons c cs ih =>
    obtain ⟨hc, hcs⟩ := List.nodup_cons.mp hnd
    rw [List.filter_cons]
    rcases List.mem_cons.mp hb with h | h
    · subst h
      have hnil : cs.filter (fun x => decide (x = b)) = [] := by
        rw [List.filter_eq_nil_iff]
        intro x hx
        simp only [decide_eq_true_eq]
        intro hxb
        exact hc (hxb ▸ hx)
      simp [hnil]
    · have hne : c ≠ b := fun hcb => hc (hcb ▸ h)
      rw [if_neg (by simp [hne])]
      exact ih hcs h

theorem countFor_map_backends (r u : User) (ty ti bo : String)
    (l : List String) (b : String) :
    countFor (l.map (fun bk =>
      ({ user := r, backend := bk, alert_type := ty, title := ti,
         body := bo, is_sent := false, failed := false,
         last_attempt := none } : Alert))) u b =
      if u = r then (l.filter (fun x => decide (x = b))).length else 0 := by
  unfold countFor
  rw [← List.countP_eq_length_filter, List.countP_map]
  by_cases hu : u = r
  · subst hu
    rw [if_pos rfl, ← List.countP_eq_length_filter]
    apply List.countP_congr
    intro x _
    simp [Function.comp]
  · rw [if_neg hu]
    have hzero : List.countP (fun _ => false) l = 0 := by simp
    rw [← hzero]
    apply List.countP_congr
    intro x _
    simp only [Function.comp, decide_eq_true_eq, Bool.false_eq_true,
      iff_false]
    intro hcon
    exact hu hcon.1.symm

theorem countForUser_map_backends (r u : User) (ty ti bo : String)
    (l : List String) :
    countForUser (l.map (fun bk =>
      ({ user := r, backend := bk, alert_type := ty, title := ti,
         body := bo, is_sent := false, failed := false,
         last_attempt := none } : Alert))) u =
      if u = r then l.length else 0 := by
  unfold countForUser
  rw [← List.countP_eq_length_filter, List.countP_map]
  by_cases hu : u = r
  · subst hu
    rw [if_pos rfl]
    have hone : List.countP (fun _ => true) l = l.length := by simp
    rw [← hone]
    apply List.countP_congr
    intro x _
    simp [Function.comp]
  · rw [if_neg hu]
    have hzero : List.countP (fun _ => false) l = 0 := by simp
    rw [← hzero]
    apply List.countP_congr
    intro x _
    simp only [Function.comp, decide_eq_true_eq, Bool.false_eq_true,
      iff_false]
    intro hcon
    exact hu hcon.symm

theorem fanOut_cons {P : Type} (T : AlertTypeDef P) (p : P) (r : User)
    (L : List User) :
    fanOut T p (r :: L) = recordsForRecipient T p r ++ fanOut T p L := rfl

theorem countFor_recordsForRecipient {P : Type} (T : AlertTypeDef P)
    (p : P) (r u : User) (b : String) :
    countFor (recordsForRecipient T p r) u b =
      if u = r then
        (T.targetBackendIds.filter (fun x => decide (x = b))).length
      else 0 := by
  unfold recordsForRecipient
  exact countFor_map_backends r u T.id (T.renderContent r p).1
    (T.renderContent r p).2 T.targetBackendIds b

theorem countForUser_recordsForRecipient {P : Type} (T : AlertTypeDef P)
    (p : P) (r u : User) :
    countForUser (recordsForRecipient T p r) u =
      if u = r then T.targetBackendIds.length else 0 := by
  unfold recordsForRecipient
  exact countForUser_map_backends r u T.id (T.renderContent r p).1
    (T.renderContent r p).2 T.targetBackendIds

theorem countFor_fanOut_zero {P : Type} (T : AlertTypeDef P) (p : P)
    (r : User) (b : String) (L : List User) (hL : r ∉ L) :
    countFor (fanOut T p L) r b = 0 := by
  induction L with
  | nil => rfl
  | cons c cs ih =>
    rw [fanOut_cons, countFor_append, countFor_recordsForRecipient]
    have hne : r ≠ c := fun h => hL (h ▸ List.mem_cons_self c cs)
    have hcs : r ∉ cs := fun h => hL (List.mem_cons_of_mem c h)
    simp [hne, ih hcs]

theorem countForUser_fanOut_zero {P : Type} (T : AlertTypeDef P) (p : P)
    (r : User) (L : List User) (hL : r ∉ L) :
    countForUser (fanOut T p L) r = 0 := by
  induction L with
  | nil => rfl
  | cons c cs ih =>
    rw [fanOut_cons, countForUser_append, countForUser_recordsForRecipient]
    have hne : r ≠ c := fun h => hL (h ▸ List.mem_cons_self c cs)
    have hcs : r ∉ cs := fun h => hL (List.mem_cons_of_mem c h)
    simp [hne, ih hcs]

theorem countFor_fanOut_one {P : Type} (T : AlertTypeDef P) (p : P)
    (r : User) (b : String) (L : List User) (hnd : L.Nodup) (hr : r ∈ L)
    (hndB : T.targetBackendIds.Nodup) (hb : b ∈ T.targetBackendIds) :
    countFor (fanOut T p L) r b = 1 := by
  induction L with
  | nil => cases hr
  | cons c cs ih =>
    rw [fanOut_cons, countFor_append, countFor_recordsForRecipient]
    rcases List.mem_cons.mp hr with h | h
    · subst h
      have hcs : r ∉ cs := (List.nodup_cons.mp hnd).1
      simp [filter_eq_single_length hndB hb,
        countFor_fanOut_zero T p r b cs hcs]
    · have hne : r ≠ c := by
        intro hrc
        exact (List.nodup_cons.mp hnd).1 (hrc ▸ h)
      simp [hne, ih (List.nodup_cons.mp hnd).2 h]

theorem mem_fanOut {P : Type} {T : AlertTypeDef P} {p : P} {L : List User}
    {a : Alert} (ha : a ∈ fanOut T p L) :
    ∃ r ∈ L, a ∈ recordsForRecipient T p r := by
  induction L with
  | nil => cases ha
  | cons c cs ih =>
    rw [fanOut_cons] at ha
    rcases List.mem_append.mp ha with h | h
    · exact ⟨c, List.mem_cons_self c cs, h⟩
    · obtain ⟨r, hrL, har⟩ := ih h
      exact ⟨r, List.mem_cons_of_mem c hrL, har⟩

theorem mem_recordsForRecipient_fields {P : Type} {T : AlertTypeDef P}
    {p : P} {r : User} {a : Alert} (ha : a ∈ recordsForRecipient T p r) :
    a.user = r ∧ a.title = (T.renderContent r p).1 ∧
    a.body = (T.renderContent r p).2 ∧ a.alert_type = T.id ∧
    a.is_sent = false ∧ a.failed = false ∧ a.last_attempt = none := by
  unfold recordsForRecipient at ha
  obtain ⟨bk, _, rfl⟩ := List.mem_map.mp ha
  exact ⟨rfl, rfl, rfl, rfl, rfl, rfl, rfl⟩

/-- Claim C6: for an applicable triggering event, the factory creates
exactly one record per (recipient with the type enabled, targeted backend)
pair, zero records for recipients who opted out, and every created record
carries the rendered title and body of its recipient, fixed at creation,
in the fresh pending state. -/
theorem factory_one_record_per_pair {P : Type} (T : AlertTypeDef P)
    (pref : User → Bool) (p : P)
    (hApp : T.isApplicable p = true)
    (hndR : (T.recipientsFor p).Nodup)
    (hndB : T.targetBackendIds.Nodup) :
    (∀ r ∈ T.recipientsFor p, pref r = true → ∀ b ∈ T.targetBackendIds,
      countFor (createAlerts T pref p) r b = 1) ∧
    (∀ r ∈ T.recipientsFor p, pref r = false →
      countForUser (createAlerts T pref p) r = 0) ∧
    (∀ a ∈ createAlerts T pref p,
      a.title = (T.renderContent a.user p).1 ∧
      a.body = (T.renderContent a.user p).2 ∧
      a.alert_type = T.id ∧ a.is_sent = false ∧ a.failed = false ∧
      a.last_attempt = none) := by
  have hca : createAlerts T pref p =
      fanOut T p ((T.recipientsFor p).filter pref) := by
    simp [createAlerts, hApp]
  refine ⟨?_, ?_, ?_⟩
  · intro r hr hpref b hb
    rw [hca]
    exact countFor_fanOut_one T p r b _ (hndR.filter pref)
      (List.mem_filter.mpr ⟨hr, hpref⟩) hndB hb
  · intro r hr hpref
    rw [hca]
    apply countForUser_fanOut_zero
    intro hmem
    have := (List.mem_filter.mp hmem).2
    rw [hpref] at this
    cases this
  · intro a ha
    rw [hca] at ha
    obtain ⟨r, _, har⟩ := mem_fanOut ha
    obtain ⟨hu, ht, hb, hty, hs, hf, hl⟩ :=
      mem_recordsForRecipient_fields har
    rw [hu]
    exact ⟨ht, hb, hty, hs, hf, hl⟩

/-- Witness for C6: the two-recipient fixture, where the user without an
email address opted out: one record for the enabled recipient and the
EpicFail backend, none for the opted-out recipient. -/
theorem factory_one_record_per_pair_witness :
    TwoUserAlertDef.isApplicable () = true ∧
    (TwoUserAlertDef.recipientsFor ()).Nodup ∧
    TwoUserAlertDef.targetBackendIds.Nodup ∧
    countFor (createAlerts TwoUserAlertDef prefByEmail ()) userWithEmail
      "EpicFail" = 1 ∧
    countForUser (createAlerts TwoUserAlertDef prefByEmail ())
      userNoEmail = 0 :=
  ⟨rfl, by decide, by decide,
   (factory_one_record_per_pair TwoUserAlertDef prefByEmail () rfl
     (by decide) (by decide)).1 userWithEmail (by decide) (by decide)
     "EpicFail" (by decide),
   (factory_one_record_per_pair TwoUserAlertDef prefByEmail () rfl
     (by decide) (by decide)).2.1 userNoEmail (by decide) (by decide)⟩

/-! ### Pending-count lemmas for sweeps -/

theorem attemptSend_of_success (send : Alert → SendOutcome) (t : Nat)
    (a : Alert) (h : send { a with last_attempt := some t } = .success) :
    attemptSend send t a =
      { a with last_attempt := some t, is_sent := true, failed := false } := by
  unfold attemptSend
  rw [h]

theorem attemptSend_of_couldNotDeliver (send : Alert → SendOutcome)
    (t : Nat) (a : Alert)
    (h : send { a with last_attempt := some t } = .couldNotDeliver) :
    attemptSend send t a =
      { a with last_attempt := some t, failed := true } := by
  unfold attemptSend
  rw [h]

theorem pendingCount_cons (x : Alert) (xs : List Alert) :
    pendingCount (x :: xs) =
      (if x.is_sent then 0 else 1) + pendingCount xs := by
  by_cases h : x.is_sent <;> simp [pendingCount, List.filter_cons, h] <;>
    omega

theorem sweepStore_cons (send : Alert → SendOutcome) (t : Nat) (a : Alert)
    (s : List Alert) :
    sweepStore send t (a :: s) =
      (if a.is_sent then a else attemptSend send t a) ::
        sweepStore send t s := rfl

theorem pendingCount_recordsForRecipient {P : Type} (T : AlertTypeDef P)
    (p : P) (r : User) :
    pendingCount (recordsForRecipient T p r) =
      T.targetBackendIds.length := by
  unfold pendingCount
  rw [List.filter_eq_self.mpr]
  · unfold recordsForRecipient
    rw [List.length_map]
  · intro a ha
    have hs := (mem_recordsForRecipient_fields ha).2.2.2.2.1
    simp [hs]

theorem pendingCount_sweep_success (send : Alert → SendOutcome) (t : Nat)
    (store : List Alert) (h : ∀ a, send a = .success) :
    pendingCount (sweepStore send t store) = 0 := by
  induction store with
  | nil => rfl
  | cons a s ih =>
    rw [sweepStore_cons, pendingCount_cons]
    by_cases hs : a.is_sent
    · simp [hs, ih]
    · rw [if_neg hs, attemptSend_of_success send t a (h _)]
      simp [ih]

theorem pendingCount_sweep_failOn (send : Alert → SendOutcome) (t : Nat)
    (store : List Alert) (b : String)
    (hpend : ∀ a ∈ store, a.is_sent = false)
    (hsend : ∀ a, send a =
      if a.backend = b then .couldNotDeliver else .success) :
    pendingCount (sweepStore send t store) =
      (store.filter (fun a => decide (a.backend = b))).length := by
  induction store with
  | nil => rfl
  | cons a s ih =>
    have ha : a.is_sent = false := hpend a (List.mem_cons_self a s)
    have hrest : ∀ x ∈ s, x.is_sent = false :=
      fun x hx => hpend x (List.mem_cons_of_mem a hx)
    rw [sweepStore_cons, pendingCount_cons, List.filter_cons]
    have hnot : ¬a.is_sent := by simp [ha]
    by_cases hb : a.backend = b
    · have hc : send { a with last_attempt := some t } = .couldNotDeliver := by
        rw [hsend]
        simp [hb]
      rw [if_neg hnot, attemptSend_of_couldNotDeliver send t a hc]
      simp [ha, hb, ih hrest]
      omega
    · have hc : send { a with last_attempt := some t } = .success := by
        rw [hsend]
        simp [hb]
      rw [if_neg hnot, attemptSend_of_success send t a hc]
      simp [hb, ih hrest]

/-- Claim C5: immediately after creation for one recipient the pending
count equals the number of targeted backends; a full sweep in which every
send succeeds empties the pending set; a sweep in which exactly the
records of one backend fail leaves a pending count equal to the number of
records of that backend. -/
theorem pending_count_properties {P : Type} (T : AlertTypeDef P)
    (pref : User → Bool) (p : P) (r : User) (send : Alert → SendOutcome)
    (t : Nat) (store : List Alert) (b : String) :
    (T.isApplicable p = true → T.recipientsFor p = [r] → pref r = true →
      pendingCount (createAlerts T pref p) =
        T.targetBackendIds.length) ∧
    ((∀ a, send a = .success) →
      pendingCount (sweepStore send t store) = 0) ∧
    ((∀ a ∈ store, a.is_sent = false) →
     (∀ a, send a = if a.backend = b then .couldNotDeliver else .success) →
      pendingCount (sweepStore send t store) =
        (store.filter (fun a => decide (a.backend = b))).length) := by
  refine ⟨?_, pendingCount_sweep_success send t store,
    pendingCount_sweep_failOn send t store b⟩
  intro hApp hrec hpref
  have hca : createAlerts T pref p = recordsForRecipient T p r := by
    simp [createAlerts, hApp, hrec, fanOut, hpref]
  rw [hca, pendingCount_recordsForRecipient]

/-- Witness for C5: the WelcomeAlert fixture with its four backends: four
pending records at creation, zero after an all-success sweep, one after a
sweep in which only the EpicFail records fail. -/
theorem pending_count_properties_witness :
    pendingCount (createAlerts WelcomeAlertDef (fun _ => true) ()) = 4 ∧
    pendingCount (sweepStore (fun _ => .success) 3
      (createAlerts WelcomeAlertDef (fun _ => true) ())) = 0 ∧
    pendingCount (sweepStore (sendFailOn "EpicFail") 3
      (createAlerts WelcomeAlertDef (fun _ => true) ())) = 1 :=
  ⟨(pending_count_properties WelcomeAlertDef (fun _ => true) ()
      userWithEmail (fun _ => .success) 3 [] "EpicFail").1 rfl rfl rfl,
   (pending_count_properties WelcomeAlertDef (fun _ => true) ()
      userWithEmail (fun _ => .success) 3
      (createAlerts WelcomeAlertDef (fun _ => true) ()) "EpicFail").2.1
     (fun _ => rfl),
   (pending_count_properties WelcomeAlertDef (fun _ => true) ()
      userWithEmail (sendFailOn "EpicFail") 3
      (createAlerts WelcomeAlertDef (fun _ => true) ()) "EpicFail").2.2
     (by decide) (fun _ => rfl)⟩

/-! ### The concurrent dispatch protocol: invariant proofs -/

theorem passed_atRecord {n : Nat} (p : Nat) (i : Fin n) :
    passed (ThreadState.atRecord p) i ↔ i.val < p := Iff.rfl

theorem passed_holding {n : Nat} (j i : Fin n) :
    passed (ThreadState.holding j) i ↔ i.val < j.val := Iff.rfl

theorem inv_init (n m : Nat) (outcome : Fin n → SendOutcome) :
    Inv outcome (initSys n m) := by
  refine ⟨?_, ?_, ?_, ?_, ?_⟩
  · intro k
    simp [initSys, initRec]
  · intro u k h
    simp [initSys] at h
  · intro u v k hu hv
    simp [initSys] at hu
  · intro k h
    simp [initSys, initRec] at h
  · intro k _ u hpass
    rw [show (initSys n m).thrs u = .atRecord 0 from rfl,
      passed_atRecord] at hpass
    omega

theorem inv_step {n m : Nat} {outcome : Fin n → SendOutcome}
    {s s' : Sys n m} (H : Inv outcome s) (hstep : Step n m outcome s s') :
    Inv outcome s' := by
  cases hstep with
  | skip t p hp ht hl hr hth =>
    refine ⟨?_, ?_, ?_, ?_, ?_⟩
    · intro k
      rw [hr k]
      exact H.delivered_eq k
    · intro u k h
      rw [hth u] at h
      rw [hr k]
      by_cases hu : u = t
      · rw [if_pos hu] at h
        exact ThreadState.noConfusion h
      · rw [if_neg hu] at h
        exact H.holding_locked u k h
    · intro u v k hu' hv'
      rw [hth u] at hu'
      rw [hth v] at hv'
      by_cases hu : u = t
      · rw [if_pos hu] at hu'
        exact ThreadState.noConfusion hu'
      · rw [if_neg hu] at hu'
        by_cases hv : v = t
        · rw [if_pos hv] at hv'
          exact ThreadState.noConfusion hv'
        · rw [if_neg hv] at hv'
          exact H.holding_unique u v k hu' hv'
    · intro k hlock
      rw [hr k] at hlock
      obtain ⟨u, hu⟩ := H.locked_holder k hlock
      refine ⟨u, ?_⟩
      rw [hth u]
      have hu' : u ≠ t := by
        intro he
        rw [he, ht] at hu
        exact ThreadState.noConfusion hu
      rw [if_neg hu']
      exact hu
    · intro k hout u hpass
      rw [hth u] at hpass
      rw [hr k]
      by_cases hu : u = t
      · rw [if_pos hu, passed_atRecord] at hpass
        by_cases hkp : k.val < p
        · refine H.passed_state k hout t ?_
          rw [ht, passed_atRecord]
          exact hkp
        · have hk : k = ⟨p, hp⟩ := by
            apply Fin.ext
            show k.val = p
            omega
          rw [hk]
          exact Or.inr hl
      · rw [if_neg hu] at hpass
        exact H.passed_state k hout u hpass
  | claim t p hp ht hl hr hth =>
    refine ⟨?_, ?_, ?_, ?_, ?_⟩
    · intro k
      rw [hr k]
      by_cases hk : k = ⟨p, hp⟩
      · rw [if_pos hk]
        exact H.delivered_eq k
      · rw [if_neg hk]
        exact H.delivered_eq k
    · intro u k h
      rw [hth u] at h
      rw [hr k]
      by_cases hu : u = t
      · rw [if_pos hu] at h
        have hk : k = ⟨p, hp⟩ := by
          cases h
          rfl
        rw [if_pos hk]
      · rw [if_neg hu] at h
        by_cases hk : k = ⟨p, hp⟩
        · rw [if_pos hk]
        · rw [if_neg hk]
          exact H.holding_locked u k h
    · intro u v k hu' hv'
      rw [hth u] at hu'
      rw [hth v] at hv'
      by_cases hu : u = t <;> by_cases hv : v = t
      · rw [hu, hv]
      · rw [if_pos hu] at hu'
        rw [if_neg hv] at hv'
        have hk : k = ⟨p, hp⟩ := by
          cases hu'
          rfl
        rw [hk] at hv'
        have := H.holding_locked v ⟨p, hp⟩ hv'
        rw [hl] at this
        exact Bool.noConfusion this
      · rw [if_neg hu] at hu'
        rw [if_pos hv] at hv'
        have hk : k = ⟨p, hp⟩ := by
          cases hv'
          rfl
        rw [hk] at hu'
        have := H.holding_locked u ⟨p, hp⟩ hu'
        rw [hl] at this
        exact Bool.noConfusion this
      · rw [if_neg hu] at hu'
        rw [if_neg hv] at hv'
        exact H.holding_unique u v k hu' hv'
    · intro k hlock
      by_cases hk : k = ⟨p, hp⟩
      · refine ⟨t, ?_⟩
        rw [hth t, if_pos rfl, hk]
      · rw [hr k, if_neg hk] at hlock
        obtain ⟨u, hu⟩ := H.locked_holder k hlock
        have hu' : u ≠ t := by
          intro he
          rw [he, ht] at hu
          exact ThreadState.noConfusion hu
        refine ⟨u, ?_⟩
        rw [hth u, if_neg hu']
        exact hu
    · intro k hout u hpass
      rw [hth u] at hpass
      rw [hr k]
      have hgoal : (s.recs k).is_sent = true ∨
          (if k = ⟨p, hp⟩ then { s.recs k with locked := true }
           else s.recs k).locked = true := by
        by_cases hk : k = ⟨p, hp⟩
        · rw [if_pos hk]
          exact Or.inr rfl
        · rw [if_neg hk]
          by_cases hu : u = t
          · rw [if_pos hu, passed_holding] at hpass
            rcases H.passed_state k hout t
              (by rw [ht, passed_atRecord]; exact hpass) with h | h
            · exact Or.inl h
            · exact Or.inr h
          · rw [if_neg hu] at hpass
            rcases H.passed_state k hout u hpass with h | h
            · exact Or.inl h
            · exact Or.inr h
      rcases hgoal with h | h
      · exact Or.inl (by
          by_cases hk : k = ⟨p, hp⟩
          · rw [if_pos hk]
            exact h
          · rw [if_neg hk]
            exact h)
      · exact Or.inr h
  | releaseSent t i ht hsent hr hth =>
    refine ⟨?_, ?_, ?_, ?_, ?_⟩
    · intro k
      rw [hr k]
      by_cases hk : k = i
      · rw [if_pos hk]
        exact H.delivered_eq k
      · rw [if_neg hk]
        exact H.delivered_eq k
    · intro u k h
      rw [hth u] at h
      by_cases hu : u = t
      · rw [if_pos hu] at h
        exact ThreadState.noConfusion h
      · rw [if_neg hu] at h
        have hk : k ≠ i := by
          intro he
          rw [he] at h
          exact hu (H.holding_unique u t i h ht)
        rw [hr k, if_neg hk]
        exact H.holding_locked u k h
    · intro u v k hu' hv'
      rw [hth u] at hu'
      rw [hth v] at hv'
      by_cases hu : u = t
      · rw [if_pos hu] at hu'
        exact ThreadState.noConfusion hu'
      · rw [if_neg hu] at hu'
        by_cases hv : v = t
        · rw [if_pos hv] at hv'
          exact ThreadState.noConfusion hv'
        · rw [if_neg hv] at hv'
          exact H.holding_unique u v k hu' hv'
    · intro k hlock
      rw [hr k] at hlock
      by_cases hk : k = i
      · rw [if_pos hk] at hlock
        exact Bool.noConfusion hlock
      · rw [if_neg hk] at hlock
        obtain ⟨u, hu⟩ := H.locked_holder k hlock
        have hu' : u ≠ t := by
          intro he
          rw [he, ht] at hu
          cases hu
          exact hk rfl
        refine ⟨u, ?_⟩
        rw [hth u, if_neg hu']
        exact hu
    · intro k hout u hpass
      rw [hth u] at hpass
      rw [hr k]
      by_cases hk : k = i
      · rw [if_pos hk]
        refine Or.inl ?_
        show (s.recs k).is_sent = true
        rw [hk]
        exact hsent
      · rw [if_neg hk]
        by_cases hu : u = t
        · rw [if_pos hu, passed_atRecord] at hpass
          have hki : k.val < i.val := by
            rcases Nat.lt_or_ge k.val i.val with h | h
            · exact h
            · exact absurd (Fin.ext (by omega) : k = i) hk
          exact H.passed_state k hout t
            (by rw [ht, passed_holding]; exact hki)
        · rw [if_neg hu] at hpass
          exact H.passed_state k hout u hpass
  | deliver t i ht hsent hout0 hr hth =>
    refine ⟨?_, ?_, ?_, ?_, ?_⟩
    · intro k
      rw [hr k]
      by_cases hk : k = i
      · rw [if_pos hk]
        have := H.delivered_eq i
        rw [hsent] at this
        simp at this
        simp [this]
      · rw [if_neg hk]
        exact H.delivered_eq k
    · intro u k h
      rw [hth u] at h
      by_cases hu : u = t
      · rw [if_pos hu] at h
        exact ThreadState.noConfusion h
      · rw [if_neg hu] at h
        have hk : k ≠ i := by
          intro he
          rw [he] at h
          exact hu (H.holding_unique u t i h ht)
        rw [hr k, if_neg hk]
        exact H.holding_locked u k h
    · intro u v k hu' hv'
      rw [hth u] at hu'
      rw [hth v] at hv'
      by_cases hu : u = t
      · rw [if_pos hu] at hu'
        exact ThreadState.noConfusion hu'
      · rw [if_neg hu] at hu'
        by_cases hv : v = t
        · rw [if_pos hv] at hv'
          exact ThreadState.noConfusion hv'
        · rw [if_neg hv] at hv'
          exact H.holding_unique u v k hu' hv'
    · intro k hlock
      rw [hr k] at hlock
      by_cases hk : k = i
      · rw [if_pos hk] at hlock
        exact Bool.noConfusion hlock
      · rw [if_neg hk] at hlock
        obtain ⟨u, hu⟩ := H.locked_holder k hlock
        have hu' : u ≠ t := by
          intro he
          rw [he, ht] at hu
          cases hu
          exact hk rfl
        refine ⟨u, ?_⟩
        rw [hth u, if_neg hu']
        exact hu
    · intro k hout u hpass
      rw [hth u] at hpass
      rw [hr k]
      by_cases hk : k = i
      · rw [if_pos hk]
        exact Or.inl rfl
      · rw [if_neg hk]
        by_cases hu : u = t
        · rw [if_pos hu, passed_atRecord] at hpass
          have hki : k.val < i.val := by
            rcases Nat.lt_or_ge k.val i.val with h | h
            · exact h
            · exact absurd (Fin.ext (by omega) : k = i) hk
          exact H.passed_state k hout t
            (by rw [ht, passed_holding]; exact hki)
        · rw [if_neg hu] at hpass
          exact H.passed_state k hout u hpass
  | deliverFail t i ht hsent hout0 hr hth =>
    refine ⟨?_, ?_, ?_, ?_, ?_⟩
    · intro k
      rw [hr k]
      by_cases hk : k = i
      · rw [if_pos hk]
        show (s.recs i).delivered = if (s.recs i).is_sent then 1 else 0
        rw [hk] at *
        exact H.delivered_eq i
      · rw [if_neg hk]
        exact H.delivered_eq k
    · intro u k h
      rw [hth u] at h
      by_cases hu : u = t
      · rw [if_pos hu] at h
        exact ThreadState.noConfusion h
      · rw [if_neg hu] at h
        have hk : k ≠ i := by
          intro he
          rw [he] at h
          exact hu (H.holding_unique u t i h ht)
        rw [hr k, if_neg hk]
        exact H.holding_locked u k h
    · intro u v k hu' hv'
      rw [hth u] at hu'
      rw [hth v] at hv'
      by_cases hu : u = t
      · rw [if_pos hu] at hu'
        exact ThreadState.noConfusion hu'
      · rw [if_neg hu] at hu'
        by_cases hv : v = t
        · rw [if_pos hv] at hv'
          exact ThreadState.noConfusion hv'
        · rw [if_neg hv] at hv'
          exact H.holding_unique u v k hu' hv'
    · intro k hlock
      rw [hr k] at hlock
      by_cases hk : k = i
      · rw [if_pos hk] at hlock
        exact Bool.noConfusion hlock
      · rw [if_neg hk] at hlock
        obtain ⟨u, hu⟩ := H.locked_holder k hlock
        have hu' : u ≠ t := by
          intro he
          rw [he, ht] at hu
          cases hu
          exact hk rfl
        refine ⟨u, ?_⟩
        rw [hth u, if_neg hu']
        exact hu
    · intro k hout u hpass
      rw [hth u] at hpass
      rw [hr k]
      by_cases hk : k = i
      · rw [hk] at hout
        rw [hout0] at hout
        exact SendOutcome.noConfusion hout
      · rw [if_neg hk]
        by_cases hu : u = t
        · rw [if_pos hu, passed_atRecord] at hpass
          have hki : k.val < i.val := by
            rcases Nat.lt_or_ge k.val i.val with h | h
            · exact h
            · exact absurd (Fin.ext (by omega) : k = i) hk
          exact H.passed_state k hout t
            (by rw [ht, passed_holding]; exact hki)
        · rw [if_neg hu] at hpass
          exact H.passed_state k hout u hpass

theorem inv_reachable {n m : Nat} {outcome : Fin n → SendOutcome}
    {s : Sys n m} (h : Reachable n m outcome s) : Inv outcome s := by
  unfold Reachable at h
  induction h with
  | refl => exact inv_init n m outcome
  | tail _ hbc ih => exact inv_step ih hbc

/-- Claim C1: under the claim-and-send protocol, in every state reachable
by any interleaving of concurrently running sweeps over a shared store, no
record has ever been delivered more than once; and when all sweeps have
run to completion and every backend send succeeds (at least one sweep was
launched), every record has been delivered exactly once, so the total
number of deliveries equals the number of records — one per targeted
backend, never more. -/
theorem dispatch_delivers_exactly_once (n m : Nat)
    (outcome : Fin n → SendOutcome) (s : Sys n m)
    (hreach : Reachable n m outcome s) :
    (∀ k, (s.recs k).delivered ≤ 1) ∧
    (AllDone s → (∀ k, outcome k = .success) → 0 < m →
      (∀ k, (s.recs k).delivered = 1) ∧ totalDelivered s = n) := by
  have H := inv_reachable hreach
  constructor
  · intro k
    rw [H.delivered_eq k]
    by_cases h : (s.recs k).is_sent <;> simp [h]
  · intro hdone hout hm
    have hsent : ∀ k, (s.recs k).is_sent = true := by
      intro k
      have t0 : Fin m := ⟨0, hm⟩
      cases hth : s.thrs t0 with
      | atRecord p =>
        have hnp : n ≤ p := by
          have hd := hdone t0
          rw [hth] at hd
          exact hd
        have hpass : passed (s.thrs t0) k := by
          rw [hth, passed_atRecord]
          have := k.isLt
          omega
        rcases H.passed_state k (hout k) t0 hpass with h | h
        · exact h
        · obtain ⟨u, hu⟩ := H.locked_holder k h
          have hd := hdone u
          rw [hu] at hd
          exact hd.elim
      | holding i =>
        have hd := hdone t0
        rw [hth] at hd
        exact hd.elim
    have hdel : ∀ k, (s.recs k).delivered = 1 := by
      intro k
      rw [H.delivered_eq k, hsent k]
      rfl
    refine ⟨hdel, ?_⟩
    unfold totalDelivered
    calc (∑ k, (s.recs k).delivered) = ∑ _k : Fin n, 1 :=
        Finset.sum_congr rfl (fun k _ => hdel k)
      _ = n := by simp

/-! ### An explicit terminating run, for the concurrency witness -/

theorem walk_sent {n m : Nat} (outcome : Fin n → SendOutcome) :
    ∀ (fuel p : Nat) (s : Sys n m) (t : Fin m),
      p + fuel = n → (∀ j, s.recs j = sentRec) → s.thrs t = .atRecord p →
      Relation.ReflTransGen (Step n m outcome) s
        { recs := s.recs,
          thrs := fun u => if u = t then .atRecord n else s.thrs u } := by
  intro fuel
  induction fuel with
  | zero =>
    intro p s t hpn hrecs ht
    have hpe : p = n := by omega
    have h1 : (fun u => if u = t then ThreadState.atRecord n else s.thrs u)
        = s.thrs := by
      funext u
      by_cases hu : u = t
      · rw [if_pos hu, hu, ht, hpe]
      · rw [if_neg hu]
    rw [h1]
  | succ fuel ih =>
    intro p s t hpn hrecs ht
    have hp : p < n := by omega
    have hstep1 : Step n m outcome s
        { recs := fun j => if j = ⟨p, hp⟩ then
            { sentRec with locked := true } else s.recs j,
          thrs := fun u => if u = t then .holding ⟨p, hp⟩
            else s.thrs u } := by
      refine Step.claim s _ t p hp ht ?_ ?_ ?_
      · rw [hrecs ⟨p, hp⟩]
        rfl
      · intro j
        dsimp only
        by_cases hj : j = ⟨p, hp⟩
        · subst hj
          simp [hrecs]
        · rw [if_neg hj, if_neg hj]
      · intro u
        rfl
    have hstep2 : Step n m outcome
        { recs := fun j => if j = ⟨p, hp⟩ then
            { sentRec with locked := true } else s.recs j,
          thrs := fun u => if u = t then .holding ⟨p, hp⟩ else s.thrs u }
        { recs := s.recs,
          thrs := fun u => if u = t then .atRecord (p + 1)
            else s.thrs u } := by
      refine Step.releaseSent _ _ t ⟨p, hp⟩ ?_ ?_ ?_ ?_
      · simp
      · simp [sentRec]
      · intro j
        dsimp only
        by_cases hj : j = ⟨p, hp⟩
        · subst hj
          simp [hrecs, sentRec]
        · rw [if_neg hj, if_neg hj]
      · intro u
        dsimp only
        by_cases hu : u = t
        · subst hu
          simp
        · simp [hu]
    have hrest := ih (p + 1)
        { recs := s.recs,
          thrs := fun u => if u = t then .atRecord (p + 1) else s.thrs u }
        t (by omega) hrecs (by simp)
    have heq : (fun u => if u = t then ThreadState.atRecord n
        else (if u = t then ThreadState.atRecord (p + 1) else s.thrs u))
        = (fun u => if u = t then ThreadState.atRecord n else s.thrs u) := by
      funext u
      by_cases hu : u = t <;> simp [hu]
    rw [heq] at hrest
    exact Relation.ReflTransGen.head hstep1
      (Relation.ReflTransGen.head hstep2 hrest)

theorem walk_deliver {n m : Nat} (outcome : Fin n → SendOutcome)
    (hout : ∀ k, outcome k = .success) :
    ∀ (fuel p : Nat) (s : Sys n m) (t : Fin m),
      p + fuel = n →
      (∀ j : Fin n, s.recs j = if j.val < p then sentRec else initRec) →
      s.thrs t = .atRecord p →
      Relation.ReflTransGen (Step n m outcome) s
        { recs := fun _ => sentRec,
          thrs := fun u => if u = t then .atRecord n else s.thrs u } := by
  intro fuel
  induction fuel with
  | zero =>
    intro p s t hpn hrecs ht
    have hpe : p = n := by omega
    have h0 : s.recs = (fun _ => sentRec) := by
      funext j
      have hj := j.isLt
      rw [hrecs j, if_pos (by omega)]
    have h1 : (fun u => if u = t then ThreadState.atRecord n else s.thrs u)
        = s.thrs := by
      funext u
      by_cases hu : u = t
      · rw [if_pos hu, hu, ht, hpe]
      · rw [if_neg hu]
    rw [h1, ← h0]
  | succ fuel ih =>
    intro p s t hpn hrecs ht
    have hp : p < n := by omega
    have hvp : ((⟨p, hp⟩ : Fin n) : Nat) = p := rfl
    have hstep1 : Step n m outcome s
        { recs := fun j => if j = ⟨p, hp⟩ then
            { initRec with locked := true } else s.recs j,
          thrs := fun u => if u = t then .holding ⟨p, hp⟩
            else s.thrs u } := by
      refine Step.claim s _ t p hp ht ?_ ?_ ?_
      · rw [hrecs ⟨p, hp⟩, if_neg (by omega)]
        rfl
      · intro j
        dsimp only
        by_cases hj : j = ⟨p, hp⟩
        · subst hj
          rw [if_pos rfl, if_pos rfl, hrecs ⟨p, hp⟩, if_neg (by omega)]
        · rw [if_neg hj, if_neg hj]
      · intro u
        rfl
    have hstep2 : Step n m outcome
        { recs := fun j => if j = ⟨p, hp⟩ then
            { initRec with locked := true } else s.recs j,
          thrs := fun u => if u = t then .holding ⟨p, hp⟩ else s.thrs u }
        { recs := fun j => if j.val < p + 1 then sentRec else initRec,
          thrs := fun u => if u = t then .atRecord (p + 1)
            else s.thrs u } := by
      refine Step.deliver _ _ t ⟨p, hp⟩ ?_ ?_ (hout ⟨p, hp⟩) ?_ ?_
      · simp
      · simp [initRec]
      · intro j
        dsimp only
        by_cases hj : j = ⟨p, hp⟩
        · subst hj
          rw [if_pos rfl, if_pos rfl]
          simp [sentRec, initRec]
        · have hjv : j.val ≠ p := by
            intro hv
            exact hj (Fin.ext hv)
          rw [if_neg hj, if_neg hj, hrecs j]
          by_cases hjp : j.val < p
          · rw [if_pos hjp, if_pos (by omega)]
          · rw [if_neg hjp, if_neg (by omega)]
      · intro u
        dsimp only
        by_cases hu : u = t
        · subst hu
          simp
        · simp [hu]
    have hrest := ih (p + 1)
        { recs := fun j => if j.val < p + 1 then sentRec else initRec,
          thrs := fun u => if u = t then .atRecord (p + 1) else s.thrs u }
        t (by omega) (fun j => rfl) (by simp)
    have heq : (fun u => if u = t then ThreadState.atRecord n
        else (if u = t then ThreadState.atRecord (p + 1) else s.thrs u))
        = (fun u => if u = t then ThreadState.atRecord n else s.thrs u) := by
      funext u
      by_cases hu : u = t <;> simp [hu]
    rw [heq] at hrest
    exact Relation.ReflTransGen.head hstep1
      (Relation.ReflTransGen.head hstep2 hrest)

theorem c1_stage_one :
    Relation.ReflTransGen (Step 2 100 (fun _ => .success))
      (initSys 2 100) (c1Stage 1) := by
  have h := @walk_deliver 2 100 (fun _ => .success) (fun _ => rfl) 2 0
      (initSys 2 100) ⟨0, by omega⟩ rfl
      (fun j => by rw [if_neg (by omega)]; rfl) rfl
  have heq : ({
      recs := fun _ => sentRec,
      thrs := fun u =>
        if u = (⟨0, by omega⟩ : Fin 100) then ThreadState.atRecord 2
        else (initSys 2 100).thrs u } : Sys 2 100) = c1Stage 1 := by
    unfold c1Stage
    ext u
    · rfl
    · dsimp only
      by_cases hu : u = (⟨0, by omega⟩ : Fin 100)
      · subst hu
        simp
      · have huv : u.val ≠ 0 := by
          intro hv
          exact hu (Fin.ext hv)
        rw [if_neg hu, if_neg (by omega)]
        rfl
  rw [heq] at h
  exact h

theorem c1_stage_succ (k : Nat) (hk : k < 100) :
    Relation.ReflTransGen (Step 2 100 (fun _ => .success))
      (c1Stage k) (c1Stage (k + 1)) := by
  have h := @walk_sent 2 100 (fun _ => .success) 2 0 (c1Stage k) ⟨k, hk⟩
      rfl (fun _ => rfl) (by simp [c1Stage])
  have heq : ({
      recs := (c1Stage k).recs,
      thrs := fun u =>
        if u = (⟨k, hk⟩ : Fin 100) then ThreadState.atRecord 2
        else (c1Stage k).thrs u } : Sys 2 100) = c1Stage (k + 1) := by
    unfold c1Stage
    ext u
    · rfl
    · dsimp only
      by_cases hu : u = (⟨k, hk⟩ : Fin 100)
      · subst hu
        simp
      · have huv : u.val ≠ k := by
          intro hv
          exact hu (Fin.ext hv)
        rw [if_neg hu]
        show (if u.val < k then ThreadState.atRecord 2
          else ThreadState.atRecord 0) = _
        by_cases hlt : u.val < k
        · rw [if_pos hlt, if_pos (by omega)]
        · rw [if_neg hlt, if_neg (by omega)]
  rw [heq] at h
  exact h

theorem c1_reach_stage :
    ∀ d : Nat, d ≤ 99 →
      Relation.ReflTransGen (Step 2 100 (fun _ => .success))
        (initSys 2 100) (c1Stage (1 + d)) := by
  intro d
  induction d with
  | zero => intro _; exact c1_stage_one
  | succ d ihd =>
    intro hd
    have h1 := ihd (by omega)
    have h2 := c1_stage_succ (1 + d) (by omega)
    exact Relation.ReflTransGen.trans h1 h2

theorem c1_reach_final :
    Reachable 2 100 (fun _ => .success) c1FinalSys := by
  have h := c1_reach_stage 99 (by omega)
  have heq : c1Stage 100 = c1FinalSys := by
    unfold c1Stage c1FinalSys
    ext u
    · rfl
    · dsimp only
      have := u.isLt
      rw [if_pos (by omega)]
  show Relation.ReflTransGen (Step 2 100 (fun _ => .success))
    (initSys 2 100) c1FinalSys
  rw [← heq]
  exact h

/-- Witness for C1: the terminating run of one hundred interleaved sweeps
over the two-record store in which the first sweep delivers both records
and the remaining ninety-nine skip them: each record delivered exactly
once, two deliveries in total, never more at any point. -/
theorem dispatch_delivers_exactly_once_witness :
    (∀ k : Fin 2, (c1FinalSys.recs k).delivered ≤ 1) ∧
    (∀ k : Fin 2, (c1FinalSys.recs k).delivered = 1) ∧
    totalDelivered c1FinalSys = 2 := by
  have h := dispatch_delivers_exactly_once 2 100 (fun _ => .success)
      c1FinalSys c1_reach_final
  have hdone : AllDone c1FinalSys := fun _ => Nat.le_refl 2
  refine ⟨h.1, (h.2 hdone (fun _ => rfl) (by omega)).1,
    (h.2 hdone (fun _ => rfl) (by omega)).2⟩

end DjangoAlert
